import Mathlib

/-!
Verification development for the AFDKO repository snapshot.

Part I embeds the unified command dispatcher `c/afdko/afdko_main.cpp`
(the only program code in the snapshot) as executable Lean definitions.

Part II models the OpenType feature compiler core described by the
repository's specification.  That core (lexer, parser, semantic
analyzer, variable-value resolver, table builders, assembler) is not
present in this snapshot — the snapshot holds its documentation and the
thin dispatcher only — so each definition in Part II is modelled from
the specification's words, as noted in its doc comment.
-/

/-! ## Part I: the command dispatcher (`afdko_main.cpp`) -/

/-- One entry of the dispatcher's command registry: a full name, an
optional abbreviation (`nullptr` in C becomes `none`), and an opaque
identifier for the C++ entry point the dispatcher would call. -/
structure Command where
  name : String
  abbr : Option String
  entry : Nat
deriving DecidableEq, Repr

/-- The `commands[]` registry from `afdko_main.cpp`:
`{"tx", nullptr, main__tx}` and `{"sfntedit", "se", main__sfntedit}`.
The C sentinel entry is represented by the end of the list. -/
def commands : List Command :=
  [⟨"tx", none, 0⟩, ⟨"sfntedit", some "se", 1⟩]

/-- `find_command` from `afdko_main.cpp`: scan the registry in order;
for each entry first compare the full name with `strcmp`, then, when
the abbreviation is non-null, compare it too; return the first hit,
else null. -/
def find_command (s : String) : Option Command :=
  commands.find? (fun c => c.name == s || c.abbr == some s)

/-- The observable action `main` performs before returning, mirroring
the branches of `main` in `afdko_main.cpp`: print the help text to
stdout, print an unknown-command error to stderr, or dispatch to a
registered command's entry point with a shifted argument vector. -/
inductive MainAction where
  | printHelp
  | printUnknownError (name : String)
  | dispatchCmd (c : Command) (argv : List String)
deriving DecidableEq, Repr

/-- `main` from `afdko_main.cpp`, parameterized by `run`, the behavior
of the registered entry points (`main__tx`, `main__sfntedit`), whose
code is outside this snapshot.  `argv` is the full C argument vector,
`argv.head` being the program name; the result is the action taken
paired with the process exit status. -/
def afdkoMain (run : Command → List String → Int) (argv : List String) :
    MainAction × Int :=
  match argv with
  | [] => (.printHelp, 1)
  | [_] => (.printHelp, 1)
  | _ :: subcmd :: rest =>
    if subcmd == "-h" || subcmd == "--help" || subcmd == "help" then
      (.printHelp, 0)
    else
      match find_command subcmd with
      | none => (.printUnknownError subcmd, 1)
      | some c => (.dispatchCmd c (subcmd :: rest), run c (subcmd :: rest))

/-! ### Theorems about the dispatcher -/

/-- Closed-form characterization of `find_command`, shared by the
dispatcher theorems below. -/
lemma find_command_eq (s : String) :
    find_command s =
      if s = "tx" then some ⟨"tx", none, 0⟩
      else if s = "sfntedit" ∨ s = "se" then some ⟨"sfntedit", some "se", 1⟩
      else none := by
  unfold find_command commands
  by_cases h1 : s = "tx"
  · subst h1; rfl
  · by_cases h2 : s = "sfntedit"
    · subst h2; rfl
    · by_cases h3 : s = "se"
      · subst h3; rfl
      · simp only [List.find?, h1, h2, h3]
        have e1 : (("tx" : String) == s) = false := by
          simp [beq_iff_eq]; exact fun h => h1 h.symm
        have e2 : (("sfntedit" : String) == s) = false := by
          simp [beq_iff_eq]; exact fun h => h2 h.symm
        have e3 : ((some "se" : Option String) == some s) = false := by
          simp [beq_iff_eq]; exact fun h => h3 h.symm
        simp [e1, e2, e3, h1, h2, h3]

/-- A resolved subcommand name is never one of the help spellings,
since neither a registry name nor an abbreviation equals them. -/
lemma find_command_some_not_help (s : String) (c : Command)
    (h : find_command s = some c) :
    ¬(s = "-h" ∨ s = "--help" ∨ s = "help") := by
  rw [find_command_eq] at h
  by_cases h1 : s = "tx"
  · subst h1; decide
  · by_cases h2 : s = "sfntedit" ∨ s = "se"
    · rcases h2 with h2 | h2 <;> (subst h2; decide)
    · simp [h1, h2] at h

/-- C8: `find_command` is exact byte-for-byte matching on the registry:
`tx` and `sfntedit` resolve by full name, `se` resolves to `sfntedit`
through its abbreviation, and every other string yields null — in
particular no prefix match and no case-insensitive match. -/
theorem find_command_exact_match (s : String) :
    find_command s =
      if s = "tx" then some ⟨"tx", none, 0⟩
      else if s = "sfntedit" ∨ s = "se" then some ⟨"sfntedit", some "se", 1⟩
      else none :=
  find_command_eq s

/-- C9: the exit status and visible action of `main`, by first
argument: no subcommand prints help and returns 1; `-h`, `--help` or
`help` prints help and returns 0; an unknown subcommand prints an error
and returns 1; a registered subcommand returns exactly its entry
point's return value. -/
theorem afdkoMain_exit_status (run : Command → List String → Int)
    (prog subcmd : String) (rest : List String) :
    afdkoMain run [] = (MainAction.printHelp, 1) ∧
    afdkoMain run [prog] = (MainAction.printHelp, 1) ∧
    afdkoMain run (prog :: subcmd :: rest) =
      (if subcmd = "-h" ∨ subcmd = "--help" ∨ subcmd = "help" then
        (MainAction.printHelp, 0)
      else
        (find_command subcmd).elim (MainAction.printUnknownError subcmd, 1)
          (fun c => (MainAction.dispatchCmd c (subcmd :: rest),
                     run c (subcmd :: rest)))) := by
  refine ⟨rfl, rfl, ?_⟩
  simp only [afdkoMain]
  by_cases h : subcmd = "-h" ∨ subcmd = "--help" ∨ subcmd = "help"
  · have hb : (subcmd == "-h" || subcmd == "--help" || subcmd == "help") = true := by
      rcases h with h | h | h <;> simp [h]
    simp [hb, h]
  · push_neg at h
    have hb : (subcmd == "-h" || subcmd == "--help" || subcmd == "help") = false := by
      simp [beq_iff_eq]; tauto
    have h' : ¬(subcmd = "-h" ∨ subcmd = "--help" ∨ subcmd = "help") := by
      simp [h.1, h.2.1, h.2.2]
    simp only [hb, Bool.false_eq_true, if_neg h', reduceIte]
    cases hf : find_command subcmd <;> simp [hf]

/-- C10: dispatching to a registered subcommand removes exactly one
leading argument: the entry point receives the tail of the argument
vector, whose head is the subcommand name as typed and whose remaining
arguments are passed through unchanged and in order, and the argument
count drops by exactly one. -/
theorem afdkoMain_dispatch_shifts_one (run : Command → List String → Int)
    (prog subcmd : String) (rest : List String) (c : Command)
    (h : find_command subcmd = some c) :
    afdkoMain run (prog :: subcmd :: rest) =
      (MainAction.dispatchCmd c (subcmd :: rest), run c (subcmd :: rest)) ∧
    (subcmd :: rest) = (prog :: subcmd :: rest).tail ∧
    (subcmd :: rest).length = (prog :: subcmd :: rest).length - 1 := by
  have hh := find_command_some_not_help subcmd c h
  refine ⟨?_, rfl, rfl⟩
  simp only [afdkoMain]
  push_neg at hh
  have hb : (subcmd == "-h" || subcmd == "--help" || subcmd == "help") = false := by
    simp [beq_iff_eq]; tauto
  simp [hb, h]

/-- C10 witness: `afdko se -x` dispatches to `sfntedit` with argument
vector `["se", "-x"]`. -/
theorem afdkoMain_dispatch_shifts_one_witness :
    afdkoMain (fun c _ => (c.entry : Int)) ["afdko", "se", "-x"] =
      (MainAction.dispatchCmd ⟨"sfntedit", some "se", 1⟩ ["se", "-x"], 1) ∧
    (["se", "-x"] : List String) = (["afdko", "se", "-x"] : List String).tail ∧
    (["se", "-x"] : List String).length =
      (["afdko", "se", "-x"] : List String).length - 1 :=
  afdkoMain_dispatch_shifts_one (fun c _ => (c.entry : Int)) "afdko" "se" ["-x"]
    ⟨"sfntedit", some "se", 1⟩ (by rfl)

/-- C7 counterexample: the subcommand `otf2ttf` is not in the command
table, and `main` rejects it outright — it prints an unknown-command
error to stderr and exits with status 1; no external-process (Python)
fallback is invoked, since no branch of `main` performs one. -/
theorem dispatch_unknown_rejected_counterexample :
    find_command "otf2ttf" = none ∧
    afdkoMain (fun _ _ => 0) ["afdko", "otf2ttf"] =
      (MainAction.printUnknownError "otf2ttf", 1) := by
  exact ⟨rfl, rfl⟩

/-- C7 amended: the dispatcher resolves a subcommand name through the
explicit command table (`find_command` over `commands`); a subcommand
not found in that table (and not a help spelling) is rejected outright
with an unknown-command error and exit status 1 — this dispatcher has
no external-process (Python) fallback. -/
theorem dispatch_unknown_rejected (run : Command → List String → Int)
    (prog s : String) (rest : List String)
    (hn : find_command s = none)
    (hh : ¬(s = "-h" ∨ s = "--help" ∨ s = "help")) :
    afdkoMain run (prog :: s :: rest) = (MainAction.printUnknownError s, 1) := by
  simp only [afdkoMain]
  push_neg at hh
  have hb : (s == "-h" || s == "--help" || s == "help") = false := by
    simp [beq_iff_eq]; tauto
  simp [hb, hn]

/-- C7 witness: `afdko otf2ttf a.otf` is rejected with exit status 1. -/
theorem dispatch_unknown_rejected_witness :
    afdkoMain (fun _ _ => 0) ["afdko", "otf2ttf", "a.otf"] =
      (MainAction.printUnknownError "otf2ttf", 1) :=
  dispatch_unknown_rejected (fun _ _ => 0) "afdko" "otf2ttf" ["a.otf"]
    (by rfl) (by decide)

/-! ## Part II: the feature compiler core

Modelled from the spec: the feature compiler (lexer, parser, semantic
analyzer, variable-value resolver, table builders, assembler) described
in the specification is not contained in this repository snapshot; the
definitions below follow the specification's words. -/

/-- Modelled from the spec: the diagnostic taxonomy of section 7.
`parseError` models the spec's SyntaxError kind. -/
inductive CompileError where
  | lexError (msg : String)
  | parseError (msg : String)
  | semanticError (msg : String)
  | constraintError (msg : String)
  | variableFontError (msg : String)
deriving DecidableEq, Repr

/-- Modelled from the spec: a glyph class is an ordered sequence of
glyph identifiers. -/
abbrev GlyphClass := List String

/-- True exactly when a compile-stage result is a SemanticError. -/
def isSemanticErr {α : Type} : Except CompileError α → Bool
  | .error (.semanticError _) => true
  | _ => false

/-- Modelled from the spec: pairing of two glyph classes used together
in one rule.  Equal-length classes pair positionally; a singleton on
either side broadcasts against the other class; any other length
combination is a SemanticError.  An empty class cannot appear in a
rule and is likewise a SemanticError.  The longer class is never
truncated. -/
def expandPairedClasses (a b : GlyphClass) :
    Except CompileError (List (String × String)) :=
  if a.isEmpty || b.isEmpty then
    .error (.semanticError "empty glyph class in rule")
  else if a.length = b.length then .ok (a.zip b)
  else if b.length = 1 then .ok (a.map (fun g => (g, b.headD "")))
  else if a.length = 1 then .ok (b.map (fun g => (a.headD "", g)))
  else .error (.semanticError "paired glyph classes have incompatible lengths")

/-- C3: two glyph classes used pairwise must have equal length or a
singleton side; every violation yields a SemanticError, and a
successful expansion covers the longer class completely (its length is
the max of the two class lengths) — never a silent truncation. -/
theorem paired_class_length_check (a b : GlyphClass) :
    (¬(a.length = b.length ∨ a.length = 1 ∨ b.length = 1) →
      isSemanticErr (expandPairedClasses a b) = true) ∧
    (∀ pairs, expandPairedClasses a b = .ok pairs →
      (a.length = b.length ∨ a.length = 1 ∨ b.length = 1) ∧
      pairs.length = max a.length b.length) := by
  constructor
  · intro hbad
    push_neg at hbad
    obtain ⟨hne, hna, hnb⟩ := hbad
    unfold expandPairedClasses
    by_cases he : a.isEmpty || b.isEmpty
    · simp [he, isSemanticErr]
    · simp only [he, Bool.false_eq_true, if_false]
      simp [hne, hna, hnb, isSemanticErr]
  · intro pairs hok
    unfold expandPairedClasses at hok
    by_cases he : a.isEmpty || b.isEmpty
    · simp [he] at hok
    · simp only [he, Bool.false_eq_true, if_false] at hok
      have hae : a ≠ [] := by
        intro h; subst h; simp at he
      have hbe : b ≠ [] := by
        intro h; subst h; simp at he
      have ha1 : 1 ≤ a.length := List.length_pos.mpr hae
      have hb1 : 1 ≤ b.length := List.length_pos.mpr hbe
      by_cases h1 : a.length = b.length
      · simp only [h1, if_true] at hok
        cases hok
        refine ⟨Or.inl h1, ?_⟩
        simp [List.length_zip, h1]
      · simp only [h1, if_false] at hok
        by_cases h2 : b.length = 1
        · simp only [h2, if_true] at hok
          cases hok
          refine ⟨Or.inr (Or.inr h2), ?_⟩
          simp [h2]
          omega
        · simp only [h2, if_false] at hok
          by_cases h3 : a.length = 1
          · simp only [h3, if_true] at hok
            cases hok
            refine ⟨Or.inr (Or.inl h3), ?_⟩
            simp [h3]
            omega
          · simp [h3] at hok

/-- C3 witness: classes of lengths 2 and 3 are rejected with a
SemanticError; classes of lengths 2 and 2 expand to 2 pairs. -/
theorem paired_class_length_check_witness :
    isSemanticErr (expandPairedClasses ["a", "b"] ["c", "d", "e"]) = true ∧
    ((["a", "b"] : GlyphClass).length = (["c", "d"] : GlyphClass).length ∨
      (["a", "b"] : GlyphClass).length = 1 ∨
      (["c", "d"] : GlyphClass).length = 1) ∧
    [("a", "c"), ("b", "d")].length =
      max (["a", "b"] : GlyphClass).length (["c", "d"] : GlyphClass).length :=
  ⟨(paired_class_length_check ["a", "b"] ["c", "d", "e"]).1 (by decide),
   (paired_class_length_check ["a", "b"] ["c", "d"]).2
     [("a", "c"), ("b", "d")] (by rfl)⟩

/-! ### Variable-value resolution (designspace) -/

/-- Modelled from the spec: one designspace axis — a tag, a declared
range (minimum and maximum), and a default coordinate. -/
structure Axis where
  tag : String
  minVal : Int
  defVal : Int
  maxVal : Int
deriving DecidableEq, Repr

/-- Modelled from the spec: a designspace declares the set of axes of
the variable font. -/
structure Designspace where
  axes : List Axis
deriving DecidableEq, Repr

/-- A designspace location: axis-tag/coordinate pairs. -/
abbrev VarLocation := List (String × Int)

/-- Modelled from the spec: a variable value literal of the form
"(default, \x7blocation: value, …\x7d)" — a default value plus one
explicit value per referenced location. -/
structure VariableValue where
  defaultValue : Int
  perLocation : List (VarLocation × Int)
deriving DecidableEq, Repr

/-- Look up an axis of the designspace by tag. -/
def Designspace.findAxis (ds : Designspace) (tag : String) : Option Axis :=
  ds.axes.find? (fun ax => ax.tag == tag)

/-- One coordinate of a location is valid when its axis exists in the
active designspace and the coordinate lies within the axis's declared
range. -/
def coordValid (ds : Designspace) (p : String × Int) : Bool :=
  match ds.findAxis p.1 with
  | some ax => decide (ax.minVal ≤ p.2) && decide (p.2 ≤ ax.maxVal)
  | none => false

/-- A location is valid when each of its coordinates is. -/
def locationValid (ds : Designspace) (loc : VarLocation) : Bool :=
  loc.all (coordValid ds)

/-- A resolved variable value: the default entry plus the delta-set
records, one per explicit location. -/
structure ResolvedValue where
  defaultEntry : Int
  deltas : List (VarLocation × Int)
deriving DecidableEq, Repr

/-- Modelled from the spec: the variable-value resolver.  It validates
that every referenced location's axes exist in the active designspace
and that every coordinate lies within its axis's declared range;
out-of-range is a hard VariableFontError, never silently clamped.  On
success it builds the default value plus one delta per explicit
location. -/
def resolveVariableValue (ds : Designspace) (v : VariableValue) :
    Except CompileError ResolvedValue :=
  if v.perLocation.all (fun lv => locationValid ds lv.1) then
    .ok ⟨v.defaultValue,
         v.perLocation.map (fun lv => (lv.1, lv.2 - v.defaultValue))⟩
  else
    .error (.variableFontError
      "axis coordinate outside declared range or unknown axis")

/-- C5: a variable value literal referencing any location with an
out-of-range (or unknown-axis) coordinate fails with VariableFontError
and is never silently clamped; a literal with a default and only valid
explicit locations resolves to one default entry plus exactly one
delta per explicit location, at the literal's own locations. -/
theorem variable_value_resolution (ds : Designspace) (v : VariableValue) :
    ((∃ lv ∈ v.perLocation, locationValid ds lv.1 = false) →
      resolveVariableValue ds v =
        .error (.variableFontError
          "axis coordinate outside declared range or unknown axis")) ∧
    ((∀ lv ∈ v.perLocation, locationValid ds lv.1 = true) →
      resolveVariableValue ds v =
        .ok ⟨v.defaultValue,
             v.perLocation.map (fun lv => (lv.1, lv.2 - v.defaultValue))⟩) ∧
    (∀ r, resolveVariableValue ds v = .ok r →
      r.defaultEntry = v.defaultValue ∧
      r.deltas.length = v.perLocation.length ∧
      r.deltas.map Prod.fst = v.perLocation.map Prod.fst) := by
  refine ⟨?_, ?_, ?_⟩
  · intro hbad
    obtain ⟨lv, hmem, hinvalid⟩ := hbad
    have h : v.perLocation.all (fun lv => locationValid ds lv.1) = false := by
      rw [List.all_eq_false]
      exact ⟨lv, hmem, by simp [hinvalid]⟩
    simp [resolveVariableValue, h]
  · intro hgood
    have h : v.perLocation.all (fun lv => locationValid ds lv.1) = true := by
      rw [List.all_eq_true]
      intro lv hmem
      simp [hgood lv hmem]
    simp [resolveVariableValue, h]
  · intro r hok
    unfold resolveVariableValue at hok
    by_cases h : v.perLocation.all (fun lv => locationValid ds lv.1)
    · simp only [h, if_true] at hok
      cases hok
      refine ⟨rfl, by simp, by simp⟩
    · simp [h] at hok

/-- C5 witness: against a designspace with one axis `wght` ranging
over [100, 900], a literal with coordinate 1000 fails with
VariableFontError, and a literal with default 10 and two in-range
locations resolves to the default plus two deltas. -/
theorem variable_value_resolution_witness :
    resolveVariableValue ⟨[⟨"wght", 100, 400, 900⟩]⟩
        ⟨10, [([("wght", 1000)], 50)]⟩ =
      .error (.variableFontError
        "axis coordinate outside declared range or unknown axis") ∧
    resolveVariableValue ⟨[⟨"wght", 100, 400, 900⟩]⟩
        ⟨10, [([("wght", 700)], 50), ([("wght", 900)], 80)]⟩ =
      .ok ⟨10, [([("wght", 700)], 40), ([("wght", 900)], 70)]⟩ :=
  ⟨(variable_value_resolution ⟨[⟨"wght", 100, 400, 900⟩]⟩
      ⟨10, [([("wght", 1000)], 50)]⟩).1
      ⟨([("wght", 1000)], 50), by decide⟩,
   (variable_value_resolution ⟨[⟨"wght", 100, 400, 900⟩]⟩
      ⟨10, [([("wght", 700)], 50), ([("wght", 900)], 80)]⟩).2.1
      (by decide)⟩

/-! ### GSUB/GPOS lookup building and Extension restructuring -/

/-- Modelled from the spec: one substitution subtable of a lookup — an
ordered mapping from input glyph to replacement glyph. -/
structure Subtable where
  pairs : List (String × String)
deriving DecidableEq, Repr

/-- Apply one subtable to a glyph: the replacement of the first
matching entry, if any. -/
def Subtable.applyTo (st : Subtable) (g : String) : Option String :=
  (st.pairs.find? (fun p => p.1 == g)).map Prod.snd

/-- Modelled from the spec: serialized size in bytes of a subtable — a
format header plus one record per mapping entry. -/
def Subtable.byteSize (st : Subtable) : Nat := 6 + 4 * st.pairs.length

/-- Modelled from the spec: the largest subtable offset a lookup must
store — the lookup header (6 bytes plus one 2-byte offset per
subtable) followed by the subtables in order, so the last subtable
starts after every earlier one. -/
def lookupMaxOffset (sts : List Subtable) : Nat :=
  6 + 2 * sts.length + (sts.dropLast.map Subtable.byteSize).sum

/-- A compiled subtable: either emitted directly inside the lookup, or
wrapped in an Extension subtable pointing to the real subtable in a
larger 32-bit offset space. -/
inductive CompiledSubtable where
  | direct (st : Subtable)
  | extensionWrapped (st : Subtable)
deriving DecidableEq, Repr

/-- Shaping semantics of a compiled subtable: an Extension subtable
behaves exactly as the real subtable it wraps. -/
def CompiledSubtable.applyTo : CompiledSubtable → String → Option String
  | .direct st, g => st.applyTo g
  | .extensionWrapped st, g => st.applyTo g

/-- Modelled from the spec: the GSUB/GPOS lookup builder.  When the
cumulative subtable offsets would exceed the 16-bit range the lookup
is re-emitted as an Extension lookup wrapping all the real subtables;
otherwise the subtables are emitted directly. -/
def buildLookupSubtables (sts : List Subtable) : List CompiledSubtable :=
  if 65535 < lookupMaxOffset sts then sts.map .extensionWrapped
  else sts.map .direct

/-- Shaping semantics of a source lookup: the first subtable matching
the glyph decides the substitution. -/
def lookupApply (sts : List Subtable) (g : String) : Option String :=
  match sts with
  | [] => none
  | st :: rest =>
    match st.applyTo g with
    | some out => some out
    | none => lookupApply rest g

/-- Shaping semantics of a compiled lookup. -/
def compiledLookupApply (cs : List CompiledSubtable) (g : String) :
    Option String :=
  match cs with
  | [] => none
  | c :: rest =>
    match c.applyTo g with
    | some out => some out
    | none => compiledLookupApply rest g

/-- Wrapping every subtable of a lookup in Extension subtables does
not change the shaping result. -/
lemma compiledLookupApply_extensionWrapped (sts : List Subtable) (g : String) :
    compiledLookupApply (sts.map .extensionWrapped) g = lookupApply sts g := by
  induction sts with
  | nil => rfl
  | cons st rest ih =>
    simp only [List.map_cons, compiledLookupApply, CompiledSubtable.applyTo,
      lookupApply]
    cases st.applyTo g <;> simp [ih]

/-- Emitting every subtable of a lookup directly does not change the
shaping result. -/
lemma compiledLookupApply_direct (sts : List Subtable) (g : String) :
    compiledLookupApply (sts.map .direct) g = lookupApply sts g := by
  induction sts with
  | nil => rfl
  | cons st rest ih =>
    simp only [List.map_cons, compiledLookupApply, CompiledSubtable.applyTo,
      lookupApply]
    cases st.applyTo g <;> simp [ih]

/-- C4: a lookup whose cumulative subtable offsets exceed the 16-bit
range is re-emitted as an Extension lookup wrapping the real
subtables, and the restructured lookup produces exactly the same
substitution result on every glyph as the unrestructured lookup. -/
theorem extension_restructuring_preserves_behavior (sts : List Subtable)
    (hover : 65535 < lookupMaxOffset sts) :
    buildLookupSubtables sts = sts.map .extensionWrapped ∧
    ∀ g, compiledLookupApply (buildLookupSubtables sts) g = lookupApply sts g := by
  have hb : buildLookupSubtables sts = sts.map .extensionWrapped := by
    simp [buildLookupSubtables, hover]
  refine ⟨hb, fun g => ?_⟩
  rw [hb, compiledLookupApply_extensionWrapped]

/-- C4 witness: a lookup of two subtables whose first holds 20000
mapping records overflows the 16-bit offset range, is re-emitted in
Extension form, and still substitutes `a` by `b`. -/
theorem extension_restructuring_preserves_behavior_witness :
    buildLookupSubtables [⟨List.replicate 20000 ("a", "b")⟩, ⟨[("c", "d")]⟩] =
      ([⟨List.replicate 20000 ("a", "b")⟩, ⟨[("c", "d")]⟩] : List Subtable).map
        .extensionWrapped ∧
    compiledLookupApply
        (buildLookupSubtables
          [⟨List.replicate 20000 ("a", "b")⟩, ⟨[("c", "d")]⟩]) "c" =
      lookupApply [⟨List.replicate 20000 ("a", "b")⟩, ⟨[("c", "d")]⟩] "c" := by
  have hlen : (List.replicate 20000 (("a", "b") : String × String)).length
      = 20000 := List.length_replicate 20000 _
  have h : 65535 <
      lookupMaxOffset [⟨List.replicate 20000 ("a", "b")⟩, ⟨[("c", "d")]⟩] := by
    unfold lookupMaxOffset Subtable.byteSize
    simp only [List.dropLast, List.map, List.sum_cons, List.sum_nil,
      List.length_cons, List.length_nil, hlen]
    norm_num
  exact ⟨(extension_restructuring_preserves_behavior _ h).1,
         (extension_restructuring_preserves_behavior _ h).2 "c"⟩

/-! ### Semantic analysis: lookup index assignment and ordering -/

/-- Modelled from the spec: one substitution rule (a single
substitution suffices for the lookup-ordering model). -/
structure FeatRule where
  target : String
  replacement : String
deriving DecidableEq, Repr

/-- Modelled from the spec: one item of a feature block's body — a
reference to a named lookup, or an inline rule. -/
inductive FeatItem where
  | ref (name : String)
  | inline (r : FeatRule)
deriving DecidableEq, Repr

/-- Modelled from the spec: the top-level statements of the feature
grammar the analyzer walks. -/
inductive Stmt where
  | languagesystem (script lang : String)
  | lookupBlock (name : String) (rules : List FeatRule)
  | featureBlock (tag : String) (items : List FeatItem)
deriving DecidableEq, Repr

/-- A resolved lookup of the IR: its positional index, its source name
(`none` for a lookup synthesized from an inline rule), its rules. -/
structure IRLookup where
  index : Nat
  srcName : Option String
  rules : List FeatRule
deriving DecidableEq, Repr

/-- Modelled from the spec: the analyzer's IR — the resolved lookups
in assignment order, each feature's tag with its lookup-index list in
reference order, and the declared languagesystems. -/
structure IR where
  lookups : List IRLookup
  features : List (String × List Nat)
  langSystems : List (String × String)
deriving DecidableEq, Repr

/-- Modelled from the spec: analysis of a feature block's body.  A
lookup reference resolves against the name table; each inline rule
synthesizes a lookup carrying the next free index (the number of
lookups assigned so far).  Returns the extended lookup list and the
feature's lookup-index list in the order the items appear. -/
def analyzeItems (names : List (String × Nat)) (lookups : List IRLookup) :
    List FeatItem → Except CompileError (List IRLookup × List Nat)
  | [] => .ok (lookups, [])
  | .ref n :: rest =>
    match names.find? (fun q => q.1 == n) with
    | none => .error (.semanticError "reference to undefined lookup")
    | some p =>
      match analyzeItems names lookups rest with
      | .error e => .error e
      | .ok (lks, idxs) => .ok (lks, p.2 :: idxs)
  | .inline r :: rest =>
    match analyzeItems names (lookups ++ [⟨lookups.length, none, [r]⟩]) rest with
    | .error e => .error e
    | .ok (lks, idxs) => .ok (lks, lookups.length :: idxs)

/-- Modelled from the spec: the analyzer's walk over the statements,
threading the name table, the lookups assigned so far, the features,
and the languagesystems. -/
def analyzeStmts (names : List (String × Nat)) (lookups : List IRLookup)
    (feats : List (String × List Nat)) (ls : List (String × String)) :
    List Stmt → Except CompileError IR
  | [] => .ok ⟨lookups, feats, ls⟩
  | .languagesystem s l :: rest =>
    analyzeStmts names lookups feats (ls ++ [(s, l)]) rest
  | .lookupBlock n rules :: rest =>
    if names.any (fun q => q.1 == n) then
      .error (.semanticError "duplicate lookup definition")
    else
      analyzeStmts (names ++ [(n, lookups.length)])
        (lookups ++ [⟨lookups.length, some n, rules⟩]) feats ls rest
  | .featureBlock tag items :: rest =>
    match analyzeItems names lookups items with
    | .error e => .error e
    | .ok (lks, idxs) => analyzeStmts names lks (feats ++ [(tag, idxs)]) ls rest

/-- Modelled from the spec: the semantic analyzer, starting from empty
scopes. -/
def analyze (prog : List Stmt) : Except CompileError IR :=
  analyzeStmts [] [] [] [] prog

/-- Modelled from the spec: the lookups applied for one
(script, language) pair — each feature registers its lookup list under
every declared languagesystem, in feature declaration order; nothing
is reordered by lookup type or any other key. -/
def IR.pairLookups (ir : IR) (script lang : String) : List Nat :=
  if (script, lang) ∈ ir.langSystems then (ir.features.map Prod.snd).flatten
  else []

/-- Modelled from the spec's ordering rule: the index sequence a
feature body must produce — one index per item in exactly declaration
order: a reference contributes the named lookup's index; each inline
rule synthesizes the next fresh index, `base` counting the lookups
already assigned. -/
def declarationOrderIndices (names : List (String × Nat)) (base : Nat) :
    List FeatItem → Option (List Nat)
  | [] => some []
  | .ref n :: rest =>
    match names.find? (fun q => q.1 == n) with
    | none => none
    | some p =>
      match declarationOrderIndices names base rest with
      | none => none
      | some idxs => some (p.2 :: idxs)
  | .inline _ :: rest =>
    match declarationOrderIndices names (base + 1) rest with
    | none => none
    | some idxs => some (base :: idxs)

/-- The positional-index invariant: the i-th lookup of the list
carries index i. -/
def indexChain (lks : List IRLookup) : Prop :=
  lks.map IRLookup.index = List.range lks.length

/-- Appending a lookup carrying the current length preserves the
positional-index invariant. -/
lemma indexChain_append (lks : List IRLookup) (nm : Option String)
    (rs : List FeatRule) (h : indexChain lks) :
    indexChain (lks ++ [⟨lks.length, nm, rs⟩]) := by
  unfold indexChain at h ⊢
  simp only [List.map_append, List.map_cons, List.map_nil,
    List.length_append, List.length_cons, List.length_nil, h]
  rw [List.range_succ]

/-- `analyzeItems` preserves the positional-index invariant. -/
lemma analyzeItems_indexed (items : List FeatItem) :
    ∀ names lookups lks idxs,
      analyzeItems names lookups items = .ok (lks, idxs) →
      indexChain lookups → indexChain lks := by
  induction items with
  | nil =>
    intro names lookups lks idxs h hc
    simp only [analyzeItems] at h
    cases h
    exact hc
  | cons it rest ih =>
    intro names lookups lks idxs h hc
    cases it with
    | ref n =>
      simp only [analyzeItems] at h
      cases hf : names.find? (fun q => q.1 == n) with
      | none => rw [hf] at h; cases h
      | some p =>
        rw [hf] at h
        cases hr : analyzeItems names lookups rest with
        | error e => rw [hr] at h; cases h
        | ok pr =>
          obtain ⟨lks', idxs'⟩ := pr
          rw [hr] at h
          cases h
          exact ih names lookups _ _ hr hc
    | inline r =>
      simp only [analyzeItems] at h
      cases hr : analyzeItems names
          (lookups ++ [⟨lookups.length, none, [r]⟩]) rest with
      | error e => rw [hr] at h; cases h
      | ok pr =>
        obtain ⟨lks', idxs'⟩ := pr
        rw [hr] at h
        cases h
        exact ih names (lookups ++ [⟨lookups.length, none, [r]⟩]) _ _ hr
          (indexChain_append lookups none [r] hc)

/-- The index list `analyzeItems` returns is exactly the
declaration-order sequence. -/
lemma analyzeItems_order (items : List FeatItem) :
    ∀ names lookups lks idxs,
      analyzeItems names lookups items = .ok (lks, idxs) →
      declarationOrderIndices names lookups.length items = some idxs := by
  induction items with
  | nil =>
    intro names lookups lks idxs h
    simp only [analyzeItems] at h
    cases h
    rfl
  | cons it rest ih =>
    intro names lookups lks idxs h
    cases it with
    | ref n =>
      simp only [analyzeItems] at h
      cases hf : names.find? (fun q => q.1 == n) with
      | none => rw [hf] at h; cases h
      | some p =>
        rw [hf] at h
        cases hr : analyzeItems names lookups rest with
        | error e => rw [hr] at h; cases h
        | ok pr =>
          obtain ⟨lks', idxs'⟩ := pr
          rw [hr] at h
          cases h
          have hd := ih names lookups _ _ hr
          simp only [declarationOrderIndices, hf, hd]
    | inline r =>
      simp only [analyzeItems] at h
      cases hr : analyzeItems names
          (lookups ++ [⟨lookups.length, none, [r]⟩]) rest with
      | error e => rw [hr] at h; cases h
      | ok pr =>
        obtain ⟨lks', idxs'⟩ := pr
        rw [hr] at h
        cases h
        have := ih names (lookups ++ [⟨lookups.length, none, [r]⟩])
          _ _ hr
        rw [List.length_append, List.length_cons, List.length_nil] at this
        simp only [declarationOrderIndices, this]

/-- `analyzeStmts` preserves the positional-index invariant through to
the final IR. -/
lemma analyzeStmts_indexed (prog : List Stmt) :
    ∀ names lookups feats ls ir,
      analyzeStmts names lookups feats ls prog = .ok ir →
      indexChain lookups → indexChain ir.lookups := by
  induction prog with
  | nil =>
    intro names lookups feats ls ir h hc
    simp only [analyzeStmts] at h
    cases h
    exact hc
  | cons st rest ih =>
    intro names lookups feats ls ir h hc
    cases st with
    | languagesystem s l =>
      simp only [analyzeStmts] at h
      exact ih names lookups feats (ls ++ [(s, l)]) ir h hc
    | lookupBlock n rules =>
      simp only [analyzeStmts] at h
      by_cases hd : names.any (fun q => q.1 == n)
      · rw [if_pos hd] at h; cases h
      · rw [if_neg hd] at h
        exact ih (names ++ [(n, lookups.length)])
          (lookups ++ [⟨lookups.length, some n, rules⟩]) feats ls ir h
          (indexChain_append lookups (some n) rules hc)
    | featureBlock tag items =>
      simp only [analyzeStmts] at h
      cases hr : analyzeItems names lookups items with
      | error e => rw [hr] at h; cases h
      | ok pr =>
        obtain ⟨lks, idxs⟩ := pr
        rw [hr] at h
        exact ih names lks (feats ++ [(tag, idxs)]) ls ir h
          (analyzeItems_indexed items names lookups lks idxs hr hc)

/-- C6: the analyzer assigns lookup indices in declaration order — the
i-th lookup of a successful analysis carries index i, inline-rule
lookups included; a feature body's lookup-index list is exactly the
declaration/reference-order sequence; and the lookup list of any
registered (script, language) pair is the features' lists concatenated
in feature declaration order, with no reordering by lookup type or any
other key. -/
theorem lookup_indices_declaration_order (prog : List Stmt) (ir : IR)
    (h : analyze prog = .ok ir) :
    ir.lookups.map IRLookup.index = List.range ir.lookups.length ∧
    (∀ names lookups items lks idxs,
      analyzeItems names lookups items = .ok (lks, idxs) →
      declarationOrderIndices names lookups.length items = some idxs) ∧
    (∀ s l, (s, l) ∈ ir.langSystems →
      ir.pairLookups s l = (ir.features.map Prod.snd).flatten) := by
  refine ⟨?_, ?_, ?_⟩
  · exact analyzeStmts_indexed prog [] [] [] [] ir h rfl
  · intro names lookups items lks idxs hh
    exact analyzeItems_order items names lookups lks idxs hh
  · intro s l hm
    simp [IR.pairLookups, hm]

/-- The concrete program of the C6 witness: a languagesystem, a named
lookup, and a feature with two inline rules around a reference. -/
def progW : List Stmt :=
  [.languagesystem "DFLT" "dflt",
   .lookupBlock "lk1" [⟨"a", "b"⟩],
   .featureBlock "liga" [.inline ⟨"f", "g"⟩, .ref "lk1", .inline ⟨"x", "y"⟩]]

/-- The IR the analyzer produces for `progW`. -/
def irW : IR :=
  ⟨[⟨0, some "lk1", [⟨"a", "b"⟩]⟩, ⟨1, none, [⟨"f", "g"⟩]⟩,
    ⟨2, none, [⟨"x", "y"⟩]⟩],
   [("liga", [1, 0, 2])], [("DFLT", "dflt")]⟩

/-- C6 witness: on `progW` the three lookups carry indices 0, 1, 2 in
declaration order, the feature's list [1, 0, 2] is the
declaration-order sequence, and the (DFLT, dflt) pair sees exactly
that list. -/
theorem lookup_indices_declaration_order_witness :
    irW.lookups.map IRLookup.index = List.range irW.lookups.length ∧
    declarationOrderIndices [("lk1", 0)] 1
      [.inline ⟨"f", "g"⟩, .ref "lk1", .inline ⟨"x", "y"⟩] =
      some [1, 0, 2] ∧
    irW.pairLookups "DFLT" "dflt" = (irW.features.map Prod.snd).flatten := by
  have hir : analyze progW = .ok irW := by rfl
  have hitems : analyzeItems [("lk1", 0)]
      [⟨0, some "lk1", [⟨"a", "b"⟩]⟩]
      [.inline ⟨"f", "g"⟩, .ref "lk1", .inline ⟨"x", "y"⟩] =
      .ok (irW.lookups, [1, 0, 2]) := by rfl
  refine ⟨(lookup_indices_declaration_order progW irW hir).1, ?_, ?_⟩
  · exact (lookup_indices_declaration_order progW irW hir).2.1
      [("lk1", 0)] [⟨0, some "lk1", [⟨"a", "b"⟩]⟩]
      [.inline ⟨"f", "g"⟩, .ref "lk1", .inline ⟨"x", "y"⟩]
      irW.lookups [1, 0, 2] hitems
  · exact (lookup_indices_declaration_order progW irW hir).2.2 "DFLT" "dflt"
      (by simp [irW])

/-! ### The full compile pipeline and the assembler's write discipline -/

/-- Modelled from the spec: the compile inputs — feature source text,
glyph order, the active designspace, and the externally supplied
required tables (tag and bytes). -/
structure CompileInput where
  featureText : String
  glyphOrder : List String
  designspace : Designspace
  externalTables : List (String × List Nat)
deriving DecidableEq, Repr

/-- Split a character stream into whitespace-separated tokens,
carrying the characters of the current token in reverse. -/
def splitTokens : List Char → List Char → List String
  | [], acc => if acc.isEmpty then [] else [String.mk acc.reverse]
  | c :: cs, acc =>
    if c = ' ' || c = '\n' || c = '\t' then
      if acc.isEmpty then splitTokens cs []
      else String.mk acc.reverse :: splitTokens cs []
    else splitTokens cs (c :: acc)

/-- Modelled from the spec: the lexer — tokenizes the source on
whitespace and fails with a LexError on an unterminated string
(an odd number of quote characters). -/
def lexStage (src : String) : Except CompileError (List String) :=
  if (src.toList.count '\"') % 2 = 1 then
    .error (.lexError "unterminated string")
  else
    .ok (splitTokens src.toList [])

/-- Modelled from the spec: parsing the rules of a lookup block,
stopping at the closing brace (fueled recursion over the tokens). -/
def parseRules : Nat → List String →
    Except CompileError (List FeatRule × List String)
  | 0, _ => .error (.parseError "parser fuel exhausted")
  | _ + 1, "\x7d" :: ts => .ok ([], "\x7d" :: ts)
  | fuel + 1, "sub" :: a :: "by" :: b :: ";" :: ts =>
    match parseRules fuel ts with
    | .error e => .error e
    | .ok (rs, rest) => .ok (⟨a, b⟩ :: rs, rest)
  | _ + 1, _ => .error (.parseError "malformed rule")

/-- Modelled from the spec: parsing the items of a feature block —
lookup references and inline rules — stopping at the closing brace. -/
def parseItems : Nat → List String →
    Except CompileError (List FeatItem × List String)
  | 0, _ => .error (.parseError "parser fuel exhausted")
  | _ + 1, "\x7d" :: ts => .ok ([], "\x7d" :: ts)
  | fuel + 1, "lookup" :: n :: ";" :: ts =>
    match parseItems fuel ts with
    | .error e => .error e
    | .ok (its, rest) => .ok (.ref n :: its, rest)
  | fuel + 1, "sub" :: a :: "by" :: b :: ";" :: ts =>
    match parseItems fuel ts with
    | .error e => .error e
    | .ok (its, rest) => .ok (.inline ⟨a, b⟩ :: its, rest)
  | _ + 1, _ => .error (.parseError "malformed feature item")

/-- Modelled from the spec: the recursive-descent statement parser for
the modelled fragment of the feature grammar — `languagesystem`
declarations, named `lookup` blocks, and `feature` blocks, each block
closed by a brace, its repeated label, and a semicolon. -/
def parseStmts : Nat → List String → Except CompileError (List Stmt)
  | 0, _ => .error (.parseError "parser fuel exhausted")
  | _ + 1, [] => .ok []
  | fuel + 1, "languagesystem" :: s :: l :: ";" :: ts =>
    match parseStmts fuel ts with
    | .error e => .error e
    | .ok sts => .ok (.languagesystem s l :: sts)
  | fuel + 1, "lookup" :: n :: "\x7b" :: ts =>
    (match parseRules fuel ts with
    | .error e => .error e
    | .ok (rs, rest) =>
      match rest with
      | "\x7d" :: n2 :: ";" :: ts2 =>
        if n2 = n then
          match parseStmts fuel ts2 with
          | .error e => .error e
          | .ok sts => .ok (.lookupBlock n rs :: sts)
        else .error (.parseError "mismatched lookup block label")
      | _ => .error (.parseError "unterminated lookup block"))
  | fuel + 1, "feature" :: tag :: "\x7b" :: ts =>
    (match parseItems fuel ts with
    | .error e => .error e
    | .ok (its, rest) =>
      match rest with
      | "\x7d" :: tag2 :: ";" :: ts2 =>
        if tag2 = tag then
          match parseStmts fuel ts2 with
          | .error e => .error e
          | .ok sts => .ok (.featureBlock tag its :: sts)
        else .error (.parseError "mismatched feature block label")
      | _ => .error (.parseError "unterminated feature block"))
  | _ + 1, _ => .error (.parseError "unrecognized statement")

/-- Modelled from the spec: the parser stage over the token stream. -/
def parseStage (toks : List String) : Except CompileError (List Stmt) :=
  parseStmts (toks.length + 1) toks

/-- Every glyph a rule mentions must be in the supplied glyph order. -/
def glyphsKnown (go : List String) (ir : IR) : Bool :=
  ir.lookups.all (fun lk => lk.rules.all
    (fun r => go.contains r.target && go.contains r.replacement))

/-- Modelled from the spec: the semantic-analysis stage — symbol
resolution and lookup-index assignment (`analyze`), then validation
that every rule glyph exists in the glyph order. -/
def analyzeStage (go : List String) (stmts : List Stmt) :
    Except CompileError IR :=
  match analyze stmts with
  | .error e => .error e
  | .ok ir =>
    if glyphsKnown go ir then .ok ir
    else .error (.semanticError "rule references glyph not in glyph order")

/-- Modelled from the spec: the variable-value resolution stage — the
active designspace must be well-formed (each axis default inside its
declared range) before deltas can be built. -/
def resolveStage (ds : Designspace) (ir : IR) : Except CompileError IR :=
  if ds.axes.all (fun ax =>
      decide (ax.minVal ≤ ax.defVal) && decide (ax.defVal ≤ ax.maxVal)) then
    .ok ir
  else .error (.variableFontError "designspace axis default outside range")

/-- Serialize a glyph name as bytes (its character codes, nul-ended). -/
def glyphBytes (g : String) : List Nat := (g.toList.map Char.toNat) ++ [0]

/-- Serialize one subtable: format byte, record count, records. -/
def serializeSubtable (st : Subtable) : List Nat :=
  1 :: st.pairs.length ::
    (st.pairs.map (fun p => glyphBytes p.1 ++ glyphBytes p.2)).flatten

/-- Serialize a compiled subtable: Extension wrappers carry the
Extension lookup-type byte (7) before the real subtable. -/
def serializeCompiled : CompiledSubtable → List Nat
  | .direct st => 0 :: serializeSubtable st
  | .extensionWrapped st => 7 :: serializeSubtable st

/-- Modelled from the spec: the GSUB table builder — version, lookup
count, each lookup's compiled subtables, the feature records. -/
def buildGSUB (ir : IR) : List Nat :=
  1 :: 0 :: ir.lookups.length ::
    ((ir.lookups.map (fun lk =>
      ((buildLookupSubtables
        [⟨lk.rules.map (fun r => (r.target, r.replacement))⟩]).map
          serializeCompiled).flatten)).flatten ++
     (ir.features.map Prod.snd).flatten)

/-- Modelled from the spec: the table-building stage; fails with a
ConstraintError when a structural limit cannot be satisfied (more
lookups than the 16-bit lookup-count field can hold). -/
def buildStage (ir : IR) : Except CompileError (List (String × List Nat)) :=
  if ir.lookups.length ≤ 65535 then .ok [("GSUB", buildGSUB ir)]
  else .error (.constraintError "too many lookups for a 16-bit count")

/-- Pad a table to a 4-byte boundary. -/
def pad4 (bs : List Nat) : List Nat :=
  bs ++ List.replicate ((4 - bs.length % 4) % 4) 0

/-- Per-table checksum, modulo 2^32. -/
def tableChecksum (bs : List Nat) : Nat := bs.sum % 4294967296

/-- Lexicographic order on character streams by character code. -/
def charListLe : List Char → List Char → Bool
  | [], _ => true
  | _ :: _, [] => false
  | a :: as, b :: bs =>
    if a.toNat < b.toNat then true
    else if b.toNat < a.toNat then false
    else charListLe as bs

/-- Byte-wise order on table tags. -/
def tagLe (s t : String) : Bool := charListLe s.toList t.toList

/-- Insert a table into a tag-sorted directory. -/
def insertByTag (t : String × List Nat) :
    List (String × List Nat) → List (String × List Nat)
  | [] => [t]
  | u :: us => if tagLe t.1 u.1 then t :: u :: us else u :: insertByTag t us

/-- Sort a table directory by tag. -/
def sortByTag (ts : List (String × List Nat)) : List (String × List Nat) :=
  ts.foldr insertByTag []

/-- Modelled from the spec: the assembler — requires the externally
supplied `head` table, sorts the directory by tag, pads each table to
a 4-byte boundary, and prefixes the directory size and the
checksum-adjustment value; a missing required table aborts the
compile. -/
def assembleStage (external generated : List (String × List Nat)) :
    Except CompileError (List Nat) :=
  if (external.map Prod.fst).contains "head" then
    .ok
      ((sortByTag (external ++ generated)).length ::
       ((sortByTag (external ++ generated)).map
          (fun t => tableChecksum t.2)).sum % 4294967296 ::
       ((sortByTag (external ++ generated)).map (fun t => pad4 t.2)).flatten)
  else .error (.constraintError "missing required external table: head")

/-- Modelled from the spec: the full compile — lexing, parsing,
semantic analysis, variable-value resolution, table building,
assembly; the first failing stage aborts the compile with its
diagnostic. -/
def runCompile (inp : CompileInput) : Except CompileError (List Nat) :=
  match lexStage inp.featureText with
  | .error e => .error e
  | .ok toks =>
    match parseStage toks with
    | .error e => .error e
    | .ok stmts =>
      match analyzeStage inp.glyphOrder stmts with
      | .error e => .error e
      | .ok ir =>
        match resolveStage inp.designspace ir with
        | .error e => .error e
        | .ok ir2 =>
          match buildStage ir2 with
          | .error e => .error e
          | .ok gen => assembleStage inp.externalTables gen

/-- A file system: a map from path to file contents. -/
abbrev FileSys := String → Option (List Nat)

/-- Write one file. -/
def FileSys.write (fs : FileSys) (path : String) (bytes : List Nat) :
    FileSys :=
  fun p => if p = path then some bytes else fs p

/-- Modelled from the spec: the compile driver performs the single
scoped write of the output binary only after every stage has
succeeded; a failed compile performs no write at all. -/
def compileAndWrite (fs : FileSys) (dest : String) (inp : CompileInput) :
    FileSys :=
  match runCompile inp with
  | .ok bytes => fs.write dest bytes
  | .error _ => fs

/-- C2: whenever any upstream stage — lexing, parsing, semantic
analysis, variable-value resolution, table building, or assembly —
fails, the whole compile yields an error and the driver writes no
output file: the file system is unchanged, in particular the
destination path, so no partial or truncated binary ever exists
there. -/
theorem failed_compile_writes_nothing (fs : FileSys) (dest : String)
    (inp : CompileInput)
    (h : (∃ e, lexStage inp.featureText = .error e) ∨
         (∃ toks e, lexStage inp.featureText = .ok toks ∧
            parseStage toks = .error e) ∨
         (∃ toks stmts e, lexStage inp.featureText = .ok toks ∧
            parseStage toks = .ok stmts ∧
            analyzeStage inp.glyphOrder stmts = .error e) ∨
         (∃ toks stmts ir e, lexStage inp.featureText = .ok toks ∧
            parseStage toks = .ok stmts ∧
            analyzeStage inp.glyphOrder stmts = .ok ir ∧
            resolveStage inp.designspace ir = .error e) ∨
         (∃ toks stmts ir ir2 e, lexStage inp.featureText = .ok toks ∧
            parseStage toks = .ok stmts ∧
            analyzeStage inp.glyphOrder stmts = .ok ir ∧
            resolveStage inp.designspace ir = .ok ir2 ∧
            buildStage ir2 = .error e) ∨
         (∃ toks stmts ir ir2 gen e, lexStage inp.featureText = .ok toks ∧
            parseStage toks = .ok stmts ∧
            analyzeStage inp.glyphOrder stmts = .ok ir ∧
            resolveStage inp.designspace ir = .ok ir2 ∧
            buildStage ir2 = .ok gen ∧
            assembleStage inp.externalTables gen = .error e)) :
    (∃ e, runCompile inp = .error e) ∧
    compileAndWrite fs dest inp = fs ∧
    ∀ p, compileAndWrite fs dest inp p = fs p := by
  have herr : ∃ e, runCompile inp = .error e := by
    rcases h with ⟨e, h1⟩ | ⟨toks, e, h1, h2⟩ | ⟨toks, stmts, e, h1, h2, h3⟩ |
      ⟨toks, stmts, ir, e, h1, h2, h3, h4⟩ |
      ⟨toks, stmts, ir, ir2, e, h1, h2, h3, h4, h5⟩ |
      ⟨toks, stmts, ir, ir2, gen, e, h1, h2, h3, h4, h5, h6⟩
    · exact ⟨e, by simp [runCompile, h1]⟩
    · exact ⟨e, by simp [runCompile, h1, h2]⟩
    · exact ⟨e, by simp [runCompile, h1, h2, h3]⟩
    · exact ⟨e, by simp [runCompile, h1, h2, h3, h4]⟩
    · exact ⟨e, by simp [runCompile, h1, h2, h3, h4, h5]⟩
    · exact ⟨e, by simp [runCompile, h1, h2, h3, h4, h5, h6]⟩
  obtain ⟨e, he⟩ := herr
  refine ⟨⟨e, he⟩, ?_, ?_⟩
  · simp [compileAndWrite, he]
  · intro p
    simp [compileAndWrite, he]

/-- C2 witness: a source with an unterminated string fails in the
lexer, and the destination path still holds nothing afterwards. -/
theorem failed_compile_writes_nothing_witness :
    compileAndWrite (fun _ => none) "out.otf"
        ⟨"\"", ["f"], ⟨[]⟩, [("head", [0])]⟩ "out.otf" = none := by
  have h := failed_compile_writes_nothing (fun _ => none) "out.otf"
    ⟨"\"", ["f"], ⟨[]⟩, [("head", [0])]⟩
    (Or.inl ⟨.lexError "unterminated string", by rfl⟩)
  rw [h.2.2 "out.otf"]

/-- A concrete compile that succeeds, showing the failure theorems are
not vacuous: the minimal end-to-end case assembles a binary. -/
lemma runCompile_success_example :
    runCompile
      ⟨"languagesystem DFLT dflt ; feature liga \x7b sub f by g ; \x7d liga ;",
       ["f", "g"], ⟨[]⟩, [("head", [0, 0, 0, 1])]⟩ =
      .ok [2, 210, 1, 0, 1, 0, 1, 1, 102, 0, 103, 0, 0, 0, 0, 0, 0, 1] := by
  rfl

/-- C1: the compile is deterministic — two runs over identical feature
source, glyph order, designspace, and external tables produce
byte-identical output: the pipeline is a pure function and no state is
shared across invocations. -/
theorem compile_deterministic (inp1 inp2 : CompileInput)
    (hf : inp1.featureText = inp2.featureText)
    (hg : inp1.glyphOrder = inp2.glyphOrder)
    (hd : inp1.designspace = inp2.designspace)
    (he : inp1.externalTables = inp2.externalTables) :
    runCompile inp1 = runCompile inp2 ∧
    ∀ fs dest, compileAndWrite fs dest inp1 = compileAndWrite fs dest inp2 := by
  obtain ⟨f1, g1, d1, e1⟩ := inp1
  obtain ⟨f2, g2, d2, e2⟩ := inp2
  simp only at hf hg hd he
  subst hf; subst hg; subst hd; subst he
  exact ⟨rfl, fun fs dest => rfl⟩

/-- C1 witness: the minimal end-to-end compile run twice yields the
same bytes. -/
theorem compile_deterministic_witness :
    runCompile
      ⟨"languagesystem DFLT dflt ; feature liga \x7b sub f by g ; \x7d liga ;",
       ["f", "g"], ⟨[]⟩, [("head", [0, 0, 0, 1])]⟩ =
    runCompile
      ⟨"languagesystem DFLT dflt ; feature liga \x7b sub f by g ; \x7d liga ;",
       ["f", "g"], ⟨[]⟩, [("head", [0, 0, 0, 1])]⟩ :=
  (compile_deterministic _ _ rfl rfl rfl rfl).1
